import Mathlib

/-!
Verification of the duplicate-detection core of
src/zotero-duplicate-enhanced/src/duplicate_enhanced.js.

JavaScript strings are modelled as List Char, JavaScript numbers as ℚ
(the script performs only field arithmetic on similarity scores and
weights), and fallible host field accessors as Except String values.
Each definition below is a direct translation of the correspondingly
named function of the script.
-/

namespace ZDup


/-- Model of the JS regex class \s (whitespace). -/
def isSpaceChar (c : Char) : Bool := c.isWhitespace

/-- The punctuation class of normalizeField:
the JS regex [.,\/#!$%\^&\*;:{}=\-_~()\[\]"] together with backquote
and apostrophe (written by code point to keep the source readable). -/
def punctChars : List Char :=
  ['.', ',', '/', '#', '!', '$', '%', '^', '&', '*', ';', ':',
   Char.ofNat 123, Char.ofNat 125, '=', '-', '_', Char.ofNat 96, '~',
   '(', ')', '[', ']', Char.ofNat 34, Char.ofNat 39]

def isPunctChar (c : Char) : Bool := punctChars.contains c

/-- First step of normalizeField: punctuation becomes a space. -/
def replacePunct (l : List Char) : List Char :=
  l.map fun c => if isPunctChar c then ' ' else c

/-- Second step of normalizeField: each whitespace run becomes one space. -/
def collapseWS : List Char → List Char
  | [] => []
  | [c] => if isSpaceChar c then [' '] else [c]
  | c1 :: c2 :: cs =>
    if isSpaceChar c1 then
      if isSpaceChar c2 then collapseWS (c2 :: cs)
      else ' ' :: collapseWS (c2 :: cs)
    else c1 :: collapseWS (c2 :: cs)

def lowerChars (l : List Char) : List Char := l.map Char.toLower

/-- JS String.prototype.trim. -/
def trimChars (l : List Char) : List Char :=
  ((l.dropWhile isSpaceChar).reverse.dropWhile isSpaceChar).reverse

/-- normalizeField from the script: punctuation to spaces, collapse
whitespace, lowercase, trim; empty input stays empty. -/
def normalizeField (s : List Char) : List Char :=
  if s = [] then []
  else trimChars (lowerChars (collapseWS (replacePunct s)))

/-- Try the DOI regex 10\.\d\x7b4,\x7d\/[^\s]+ anchored at the head of l. -/
def matchDOIAt (l : List Char) : Option (List Char) :=
  match l with
  | '1' :: '0' :: '.' :: rest =>
    let ds := rest.takeWhile Char.isDigit
    let rest2 := rest.dropWhile Char.isDigit
    if ds.length ≥ 4 then
      match rest2 with
      | '/' :: rest3 =>
        let tl := rest3.takeWhile (fun c => !(isSpaceChar c))
        if tl.isEmpty then none
        else some ('1' :: '0' :: '.' :: (ds ++ '/' :: tl))
      | _ => none
    else none
  | _ => none

/-- Leftmost match of an anchored matcher (JS String.prototype.match). -/
def findFirstMatch (f : List Char → Option (List Char)) : List Char → Option (List Char)
  | [] => none
  | c :: cs =>
    match f (c :: cs) with
    | some m => some m
    | none => findFirstMatch f cs

/-- normalizeDOI from the script. -/
def normalizeDOI (s : List Char) : List Char :=
  if s = [] then []
  else
    match findFirstMatch matchDOIAt s with
    | some m => lowerChars m
    | none => []

/-- normalizeISBN from the script. -/
def normalizeISBN (s : List Char) : List Char :=
  if s = [] then []
  else (s.filter fun c => c.isDigit || c == 'X' || c == 'x').map Char.toUpper

def stripProtocol (l : List Char) : List Char :=
  if l.take 7 = ('h' :: 't' :: 't' :: 'p' :: ':' :: '/' :: '/' :: []) then l.drop 7
  else if l.take 8 = ('h' :: 't' :: 't' :: 'p' :: 's' :: ':' :: '/' :: '/' :: []) then l.drop 8
  else l

def stripTrailingSlashes (l : List Char) : List Char :=
  (l.reverse.dropWhile (fun c => c == '/')).reverse

/-- normalizeURL from the script. -/
def normalizeURL (s : List Char) : List Char :=
  if s = [] then []
  else lowerChars (stripTrailingSlashes (stripProtocol s))

/-- A creator as returned by getCreators; [] models a missing field. -/
structure Creator where
  firstName : List Char
  lastName : List Char
  name : List Char
deriving DecidableEq

/-- The per-creator string built inside normalizeCreators. -/
def creatorName (c : Creator) : List Char :=
  trimChars (lowerChars (c.firstName ++ ' ' :: (if c.lastName ≠ [] then c.lastName else c.name)))

/-- JS default string comparison (code-unit lexicographic), used by sort(). -/
def lexLE : List Char → List Char → Bool
  | [], _ => true
  | _ :: _, [] => false
  | a :: as, b :: bs => if a < b then true else if a = b then lexLE as bs else false

/-- normalizeCreators from the script. -/
def normalizeCreators (cs : List Creator) : List Char :=
  if cs = [] then []
  else List.intercalate [' ']
    (((cs.map creatorName).filter fun n => !n.isEmpty).mergeSort lexLE)

/-- Try the year regex \b(19|20)\d\x7b2\x7d\b at the head of l
(the leading boundary is checked by the caller). -/
def yearAt (l : List Char) : Option (List Char) :=
  match l with
  | a :: b :: c :: d :: rest =>
    let okNext : Bool := match rest with
      | [] => true
      | e :: _ => !(e.isAlphanum || e == '_')
    if ((a == '1' && b == '9') || (a == '2' && b == '0')) && c.isDigit && d.isDigit && okNext then
      some (a :: b :: c :: d :: [])
    else none
  | _ => none

/-- Scanner for the year regex, tracking the previous character for \b. -/
def findYearAux : Option Char → List Char → Option (List Char)
  | _, [] => none
  | prev, c :: cs =>
    let okPrev := match prev with
      | none => true
      | some p => !(p.isAlphanum || p == '_')
    if okPrev then
      match yearAt (c :: cs) with
      | some m => some m
      | none => findYearAux (some c) cs
    else findYearAux (some c) cs

/-- extractYear from the script. -/
def extractYear (s : List Char) : List Char :=
  if s = [] then []
  else (findYearAux none s).getD []

/-! ## Similarity algorithms -/

/-- Whitespace tokenizer: split(/\s+/) followed by dropping empties. -/
def splitWSAux : List Char → List Char → List (List Char)
  | [], acc => if acc.isEmpty then [] else [acc.reverse]
  | c :: cs, acc =>
    if isSpaceChar c then
      if acc.isEmpty then splitWSAux cs []
      else acc.reverse :: splitWSAux cs []
    else splitWSAux cs (c :: acc)

def tokensOf (l : List Char) : List (List Char) := splitWSAux l []

/-- jaccardSimilarity from the script. -/
def jaccardSimilarity (str1 str2 : List Char) : ℚ :=
  if str1 = [] ∧ str2 = [] then 1
  else if str1 = [] ∨ str2 = [] then 0
  else
    let set1 := (tokensOf str1).toFinset
    let set2 := (tokensOf str2).toFinset
    if set1.card = 0 ∧ set2.card = 0 then 1
    else if set1.card = 0 ∨ set2.card = 0 then 0
    else ((set1 ∩ set2).card : ℚ) / ((set1 ∪ set2).card : ℚ)

/-- Unit substitution cost of the DP. -/
def levCost (a b : Char) : Nat := if a = b then 0 else 1

/-- Inner loop of levenshteinDistance: one DP row.
The second argument is the previous row from index j-1 on
(diag = prev[j-1], up = prev[j]), left is curr[j-1]. -/
def levRowAux (x : Char) : List Char → List Nat → Nat → List Nat
  | [], _, _ => []
  | _ :: _, [], _ => []
  | _ :: _, [_], _ => []
  | y :: ys, diag :: up :: rest, left =>
    let cur := min (up + 1) (min (left + 1) (diag + levCost x y))
    cur :: levRowAux x ys (up :: rest) cur

/-- Outer loop of levenshteinDistance over the characters of str1;
i is the row index (curr[0] = i). -/
def levLoop : List Char → List Char → List Nat → Nat → List Nat
  | [], _, prev, _ => prev
  | x :: xs, s2, prev, i => levLoop xs s2 (i :: levRowAux x s2 prev i) (i + 1)

/-- levenshteinDistance from the script (two-row dynamic program). -/
def levenshteinDistance (str1 str2 : List Char) : Nat :=
  if str1 = [] then str2.length
  else if str2 = [] then str1.length
  else (levLoop str1 str2 (List.range (str2.length + 1)) 1).getLastD 0

/-- levenshteinSimilarity from the script. -/
def levenshteinSimilarity (str1 str2 : List Char) : ℚ :=
  if str1 = [] ∧ str2 = [] then 1
  else if str1 = [] ∨ str2 = [] then 0
  else
    let maxLen := max str1.length str2.length
    if maxLen = 0 then 1
    else 1 - (levenshteinDistance str1 str2 : ℚ) / (maxLen : ℚ)

/-- combinedTitleSimilarity from the script. -/
def combinedTitleSimilarity (title1 title2 : List Char) (useFuzzy : Bool) : ℚ :=
  let jaccard := jaccardSimilarity title1 title2
  if !useFuzzy then jaccard
  else
    let lev := levenshteinSimilarity title1 title2
    let avgLen : ℚ := ((title1.length : ℚ) + (title2.length : ℚ)) / 2
    let levWeight := max 0 (1 - avgLen / 100)
    jaccard * (1 - levWeight) + lev * levWeight

/-! ## Weights -/

/-- The weight object of the script (one ℚ per field key). -/
structure Weights where
  URL : ℚ
  DOI : ℚ
  title : ℚ
  creators : ℚ
  date : ℚ
  publisher : ℚ
  journal : ℚ
  shortTitle : ℚ
  place : ℚ
  ISBN : ℚ
  itemType : ℚ
deriving DecidableEq

/-- Object.values(weights).reduce((a, b) => a + b, 0). -/
def weightsSum (w : Weights) : ℚ :=
  w.URL + w.DOI + w.title + w.creators + w.date + w.publisher + w.journal
    + w.shortTitle + w.place + w.ISBN + w.itemType

/-- normalizeWeights from the script. -/
def normalizeWeights (w : Weights) : Weights :=
  if weightsSum w = 0 then w
  else
    let t := weightsSum w
    ⟨w.URL / t, w.DOI / t, w.title / t, w.creators / t, w.date / t,
     w.publisher / t, w.journal / t, w.shortTitle / t, w.place / t,
     w.ISBN / t, w.itemType / t⟩

/-- The default weights of the script (v2.2 priority order). -/
def defaultWeights : Weights :=
  ⟨25/100, 22/100, 20/100, 15/100, 10/100, 4/100, 4/100, 0, 0, 0, 0⟩

/-! ## Normalized records and the pairwise scorer -/

/-- Result of normalizeItemFields (the originalItem back-reference is
represented by the id). -/
structure NormalizedItem where
  id : Nat
  title : List Char
  shortTitle : List Char
  date : List Char
  publisher : List Char
  place : List Char
  journal : List Char
  DOI : List Char
  ISBN : List Char
  URL : List Char
  itemType : List Char
  creators : List Char
  year : List Char
deriving DecidableEq

/-- URL similarity term of calculateSimilarity. -/
def urlFieldSim (item1 item2 : NormalizedItem) : ℚ :=
  if item1.URL ≠ [] ∧ item2.URL ≠ [] ∧ item1.URL = item2.URL then 1
  else jaccardSimilarity item1.URL item2.URL

/-- DOI similarity term of calculateSimilarity. -/
def doiFieldSim (item1 item2 : NormalizedItem) : ℚ :=
  if item1.DOI ≠ [] ∧ item2.DOI ≠ [] ∧ item1.DOI = item2.DOI then 1 else 0

/-- Date similarity term of calculateSimilarity. -/
def dateFieldSim (item1 item2 : NormalizedItem) : ℚ :=
  if item1.year ≠ [] ∧ item2.year ≠ [] ∧ item1.year = item2.year then 1
  else jaccardSimilarity item1.date item2.date

/-- One guarded accumulation step of calculateSimilarity:
s = (combinedSimilarity, totalWeight). -/
def accStep (s : ℚ × ℚ) (cond : Prop) [Decidable cond] (sim w : ℚ) : ℚ × ℚ :=
  if cond then (s.1 + sim * w, s.2 + w) else s

/-- calculateSimilarity from the script. -/
def calculateSimilarity (item1 item2 : NormalizedItem) (weights : Weights)
    (useFuzzyTitle requireSameType : Bool) : ℚ :=
  if requireSameType = true ∧ item1.itemType ≠ item2.itemType then 0
  else
    let s1 := accStep (0, 0) (0 < weights.URL) (urlFieldSim item1 item2) weights.URL
    let s2 := accStep s1 (0 < weights.DOI) (doiFieldSim item1 item2) weights.DOI
    let s3 := accStep s2 (0 < weights.title)
      (combinedTitleSimilarity item1.title item2.title useFuzzyTitle) weights.title
    let s4 := accStep s3 (0 < weights.creators)
      (jaccardSimilarity item1.creators item2.creators) weights.creators
    let s5 := accStep s4 (0 < weights.date) (dateFieldSim item1 item2) weights.date
    let s6 := accStep s5 (0 < weights.publisher)
      (jaccardSimilarity item1.publisher item2.publisher) weights.publisher
    let s7 := accStep s6 (0 < weights.journal)
      (jaccardSimilarity item1.journal item2.journal) weights.journal
    let s8 := accStep s7 (0 < weights.shortTitle)
      (jaccardSimilarity item1.shortTitle item2.shortTitle) weights.shortTitle
    let s9 := accStep s8 (0 < weights.place)
      (jaccardSimilarity item1.place item2.place) weights.place
    let s10 := accStep s9 (0 < weights.ISBN)
      (jaccardSimilarity item1.ISBN item2.ISBN) weights.ISBN
    let s11 := accStep s10 (0 < weights.itemType ∧ requireSameType = true) 1 weights.itemType
    if 0 < s11.2 then s11.1 / s11.2 else 0

/-- The match record returned by checkExactIdentifierMatch
(none models match: false). -/
structure ExactMatch where
  idKind : List Char
  value : List Char
deriving DecidableEq

def urlTag : List Char := "URL".toList

def doiTag : List Char := "DOI".toList

/-- checkExactIdentifierMatch from the script. -/
def checkExactIdentifierMatch (item1 item2 : NormalizedItem) : Option ExactMatch :=
  if item1.URL ≠ [] ∧ item2.URL ≠ [] ∧ item1.URL = item2.URL then
    some ⟨urlTag, item1.URL⟩
  else if item1.DOI ≠ [] ∧ item2.DOI ≠ [] ∧ item1.DOI = item2.DOI then
    some ⟨doiTag, item1.DOI⟩
  else none

/-! ## Raw items and normalizeItemFields -/

instance {ε α : Type} [DecidableEq ε] [DecidableEq α] : DecidableEq (Except ε α) := fun x y =>
  match x, y with
  | .ok a, .ok b =>
    if h : a = b then .isTrue (by rw [h]) else .isFalse (by intro hc; cases hc; exact h rfl)
  | .error a, .error b =>
    if h : a = b then .isTrue (by rw [h]) else .isFalse (by intro hc; cases hc; exact h rfl)
  | .ok _, .error _ => .isFalse (by intro hc; cases hc)
  | .error _, .ok _ => .isFalse (by intro hc; cases hc)

/-- A raw Zotero item. Each getField call may throw, which is modelled
by Except String; itemType is a plain property access. -/
structure RawItem where
  id : Nat
  itemType : List Char
  title : Except String (List Char)
  shortTitle : Except String (List Char)
  date : Except String (List Char)
  publisher : Except String (List Char)
  place : Except String (List Char)
  publicationTitle : Except String (List Char)
  journalAbbreviation : Except String (List Char)
  DOI : Except String (List Char)
  ISBN : Except String (List Char)
  url : Except String (List Char)
  creators : Except String (List Creator)
deriving DecidableEq

/-- normalizeItemFields from the script; field accessors are evaluated in
the order of the JS object literal, and a throwing accessor propagates. -/
def normalizeItemFields (item : RawItem) : Except String NormalizedItem := do
  let title ← item.title
  let shortTitle ← item.shortTitle
  let date ← item.date
  let publisher ← item.publisher
  let place ← item.place
  let pt ← item.publicationTitle
  let journalRaw ← if pt = [] then item.journalAbbreviation else pure pt
  let doi ← item.DOI
  let isbn ← item.ISBN
  let url ← item.url
  let creators ← item.creators
  let dateForYear ← item.date
  pure
    ⟨item.id, normalizeField title, normalizeField shortTitle, normalizeField date,
     normalizeField publisher, normalizeField place, normalizeField journalRaw,
     normalizeDOI doi, normalizeISBN isbn, normalizeURL url,
     trimChars (lowerChars item.itemType), normalizeCreators creators,
     extractYear dateForYear⟩

/-! ## The duplicate detector -/

/-- A recorded duplicate candidate pair. -/
structure DupPair where
  item1 : NormalizedItem
  item2 : NormalizedItem
  similarity : ℚ
  reason : List Char
deriving DecidableEq

def exactTag : List Char := "Exact ".toList

def matchTag : List Char := " match: ".toList

def similarityTag : List Char := "Similarity: ".toList

def typesDifferTag : List Char := " (types differ: ".toList

def vsTag : List Char := " vs ".toList

def closeParen : List Char := ")".toList

/-- Model of Number.prototype.toFixed(1) on the scores of the script
(round to nearest tenth, half up). -/
def toFixed1 (q : ℚ) : List Char :=
  let n := (round (q * 10)).toNat
  (toString (n / 10)).toList ++ '.' :: (toString (n % 10)).toList

/-- The types-differ annotation appended to reasons. -/
def typeNote (item1 item2 : NormalizedItem) : List Char :=
  if item1.itemType ≠ item2.itemType then
    typesDifferTag ++ item1.itemType ++ vsTag ++ item2.itemType ++ closeParen
  else []

/-- The body of the comparison loop for one pair (i, j):
exact-identifier fast path first, then the threshold test. -/
def comparePair (item1 item2 : NormalizedItem) (threshold : ℚ) (weights : Weights)
    (useExactMatch useFuzzyTitle requireSameType : Bool) : Option DupPair :=
  let fuzzy :=
    let similarity := calculateSimilarity item1 item2 weights useFuzzyTitle requireSameType
    if similarity ≥ threshold then
      some ⟨item1, item2, similarity,
        similarityTag ++ toFixed1 (similarity * 100) ++ '%' :: typeNote item1 item2⟩
    else none
  if useExactMatch = true then
    match checkExactIdentifierMatch item1 item2 with
    | some em =>
      some ⟨item1, item2, 1, exactTag ++ em.idKind ++ matchTag ++ em.value ++ typeNote item1 item2⟩
    | none => fuzzy
  else fuzzy

/-- All ordered pairs (i, j) with i < j, in loop encounter order. -/
def allPairs : List NormalizedItem → List (NormalizedItem × NormalizedItem)
  | [] => []
  | x :: xs => xs.map (fun y => (x, y)) ++ allPairs xs

/-- The candidate list accumulated by the comparison loop, in encounter
order (before the final sort). -/
def collectCandidates (norm : List NormalizedItem) (threshold : ℚ) (weights : Weights)
    (useExactMatch useFuzzyTitle requireSameType : Bool) : List DupPair :=
  (allPairs norm).filterMap fun p =>
    comparePair p.1 p.2 threshold weights useExactMatch useFuzzyTitle requireSameType

/-- The sort comparator (a, b) => b.similarity - a.similarity, as the
order relation of the (stable) Array.prototype.sort. -/
def pairLE (a b : DupPair) : Bool := decide (b.similarity ≤ a.similarity)

/-- detectDuplicates from the script. Normalization errors propagate out
of the normalization loop (there is no per-record catch). -/
def detectDuplicates (items : List RawItem) (threshold : ℚ) (weights : Weights)
    (useExactMatch useFuzzyTitle requireSameType : Bool) : Except String (List DupPair) := do
  let normalizedItems ← items.mapM normalizeItemFields
  pure ((collectCandidates normalizedItems threshold weights
    useExactMatch useFuzzyTitle requireSameType).mergeSort pairLE)

/-! ## Reference specification of minimum edit distance -/

/-- The textbook minimum-edit-distance recurrence with unit costs,
used as the reference specification for levenshteinDistance. -/
def levSpec : List Char → List Char → Nat
  | [], ys => ys.length
  | x :: xs, [] => (x :: xs).length
  | x :: xs, y :: ys =>
    min (levSpec xs (y :: ys) + 1)
      (min (levSpec (x :: xs) ys + 1) (levSpec xs ys + levCost x y))

/-! ## The row dynamic program computes levSpec -/

/-- Tail of the DP row for the consumed prefix A: the values
levSpec A (B ++ p) over the nonempty prefixes p of ys. -/
def prefRowTail (A B : List Char) : List Char → List Nat
  | [] => []
  | y :: ys => levSpec A (B ++ [y]) :: prefRowTail A (B ++ [y]) ys

/-- The full DP row for consumed prefix A of str1, positions B ++ prefixes of ys. -/
def prefRow (A B ys : List Char) : List Nat := levSpec A B :: prefRowTail A B ys

/-! ## Edit scripts: levSpec is the minimum edit cost -/

/-- A single unit-cost edit: insertion, deletion, or substitution at any
position. -/
inductive EditStep : List Char → List Char → Prop where
  | ins (u v : List Char) (c : Char) : EditStep (u ++ v) (u ++ c :: v)
  | del (u v : List Char) (c : Char) : EditStep (u ++ c :: v) (u ++ v)
  | subst (u v : List Char) (c d : Char) : EditStep (u ++ c :: v) (u ++ d :: v)

/-- EditPath n a b: a can be rewritten to b by exactly n single edits. -/
inductive EditPath : Nat → List Char → List Char → Prop where
  | refl (a : List Char) : EditPath 0 a a
  | step {n : Nat} {a b c : List Char} : EditStep a b → EditPath n b c → EditPath (n + 1) a c

/-! ## Specification-side definitions used by the claims -/

/-- Specification-side Jaccard index of two finite token sets, following
the wording of the spec; two empty sets are treated as identical (index 1),
which is the reading forced by the rule that two empty inputs count as
identical and that tokenSetSimilarity of a string with itself is 1. -/
def jaccardIndexSpec (s t : Finset (List Char)) : ℚ :=
  if s ∪ t = ∅ then 1 else ((s ∩ t).card : ℚ) / ((s ∪ t).card : ℚ)

/-- Specification-side tokenSetSimilarity: both inputs empty gives 1,
exactly one empty gives 0, otherwise the Jaccard index over the sets of
non-empty whitespace-delimited tokens. -/
def tokenSetSimilaritySpec (a b : List Char) : ℚ :=
  if a = [] ∧ b = [] then 1
  else if a = [] ∨ b = [] then 0
  else jaccardIndexSpec (tokensOf a).toFinset (tokensOf b).toFinset

/-- Specification-side accumulated similarity of the pairwise scorer:
for each field with positive weight, the per-field similarity times the
weight; itemType contributes only when requireSameType is on. -/
def specAccSim (item1 item2 : NormalizedItem) (w : Weights)
    (useFuzzyTitle requireSameType : Bool) : ℚ :=
  (if 0 < w.URL then urlFieldSim item1 item2 * w.URL else 0)
  + (if 0 < w.DOI then doiFieldSim item1 item2 * w.DOI else 0)
  + (if 0 < w.title then combinedTitleSimilarity item1.title item2.title useFuzzyTitle * w.title else 0)
  + (if 0 < w.creators then jaccardSimilarity item1.creators item2.creators * w.creators else 0)
  + (if 0 < w.date then dateFieldSim item1 item2 * w.date else 0)
  + (if 0 < w.publisher then jaccardSimilarity item1.publisher item2.publisher * w.publisher else 0)
  + (if 0 < w.journal then jaccardSimilarity item1.journal item2.journal * w.journal else 0)
  + (if 0 < w.shortTitle then jaccardSimilarity item1.shortTitle item2.shortTitle * w.shortTitle else 0)
  + (if 0 < w.place then jaccardSimilarity item1.place item2.place * w.place else 0)
  + (if 0 < w.ISBN then jaccardSimilarity item1.ISBN item2.ISBN * w.ISBN else 0)
  + (if 0 < w.itemType ∧ requireSameType = true then 1 * w.itemType else 0)

/-- Specification-side accumulated weight over the fields with positive
weight (itemType counting only when requireSameType is on). -/
def specAccWeight (w : Weights) (requireSameType : Bool) : ℚ :=
  (if 0 < w.URL then w.URL else 0)
  + (if 0 < w.DOI then w.DOI else 0)
  + (if 0 < w.title then w.title else 0)
  + (if 0 < w.creators then w.creators else 0)
  + (if 0 < w.date then w.date else 0)
  + (if 0 < w.publisher then w.publisher else 0)
  + (if 0 < w.journal then w.journal else 0)
  + (if 0 < w.shortTitle then w.shortTitle else 0)
  + (if 0 < w.place then w.place else 0)
  + (if 0 < w.ISBN then w.ISBN else 0)
  + (if 0 < w.itemType ∧ requireSameType = true then w.itemType else 0)

/-! ## Concrete items used by the claim witnesses -/

def okF (s : String) : Except String (List Char) := Except.ok s.toList

def rawItemA : RawItem :=
  ⟨1, "webpage".toList, okF "Deep Learning", okF "", okF "", okF "", okF "", okF "", okF "",
   okF "", okF "", okF "http://example.com/a", Except.ok []⟩

def rawItemB : RawItem :=
  ⟨2, "journalArticle".toList, okF "Different Title", okF "", okF "", okF "", okF "", okF "",
   okF "", okF "", okF "", okF "https://Example.com/a/", Except.ok []⟩

/-- A raw item whose title accessor throws. -/
def rawItemBad : RawItem :=
  ⟨3, "book".toList, Except.error "boom", okF "", okF "", okF "", okF "", okF "", okF "",
   okF "", okF "", okF "", Except.ok []⟩

def normA : NormalizedItem :=
  ⟨1, "deep learning".toList, [], [], [], [], [], [], [], "example.com/a".toList,
   "webpage".toList, [], []⟩

def normB : NormalizedItem :=
  ⟨2, "different title".toList, [], [], [], [], [], [], [], "example.com/a".toList,
   "journalarticle".toList, [], []⟩

def zeroWeights : Weights := ⟨0, 0, 0, 0, 0, 0, 0, 0, 0, 0, 0⟩

theorem levCost_le_one (a b : Char) : levCost a b ≤ 1 := by
  unfold levCost; split <;> omega

theorem levCost_comm (a b : Char) : levCost a b = levCost b a := by
  unfold levCost
  by_cases h : a = b
  · simp [h]
  · rw [if_neg h, if_neg (fun hc => h hc.symm)]

theorem levSpec_nil_right : ∀ xs : List Char, levSpec xs [] = xs.length := by
  intro xs; cases xs <;> simp [levSpec]

theorem levSpec_self : ∀ a : List Char, levSpec a a = 0 := by
  intro a
  induction a with
  | nil => simp [levSpec]
  | cons x xs ih => simp [levSpec, levCost, ih]

theorem min3_le_1 (x y z : ℕ) : min x (min y z) ≤ x := min_le_left _ _

theorem min3_le_2 (x y z : ℕ) : min x (min y z) ≤ y :=
  le_trans (min_le_right _ _) (min_le_left _ _)

theorem min3_le_3 (x y z : ℕ) : min x (min y z) ≤ z :=
  le_trans (min_le_right _ _) (min_le_right _ _)

/-- Exchanging rows and columns under a 3 by 3 minimum. -/
theorem min3_transpose (a1 a2 a3 b1 b2 b3 c1 c2 c3 : ℕ) :
    min (min a1 (min a2 a3)) (min (min b1 (min b2 b3)) (min c1 (min c2 c3))) =
    min (min a1 (min b1 c1)) (min (min a2 (min b2 c2)) (min a3 (min b3 c3))) := by
  apply le_antisymm
  · refine le_min (le_min ?_ (le_min ?_ ?_)) (le_min (le_min ?_ (le_min ?_ ?_))
      (le_min ?_ (le_min ?_ ?_)))
    · exact le_trans (min3_le_1 _ _ _) (min3_le_1 _ _ _)
    · exact le_trans (min3_le_2 _ _ _) (min3_le_1 _ _ _)
    · exact le_trans (min3_le_3 _ _ _) (min3_le_1 _ _ _)
    · exact le_trans (min3_le_1 _ _ _) (min3_le_2 _ _ _)
    · exact le_trans (min3_le_2 _ _ _) (min3_le_2 _ _ _)
    · exact le_trans (min3_le_3 _ _ _) (min3_le_2 _ _ _)
    · exact le_trans (min3_le_1 _ _ _) (min3_le_3 _ _ _)
    · exact le_trans (min3_le_2 _ _ _) (min3_le_3 _ _ _)
    · exact le_trans (min3_le_3 _ _ _) (min3_le_3 _ _ _)
  · refine le_min (le_min ?_ (le_min ?_ ?_)) (le_min (le_min ?_ (le_min ?_ ?_))
      (le_min ?_ (le_min ?_ ?_)))
    · exact le_trans (min3_le_1 _ _ _) (min3_le_1 _ _ _)
    · exact le_trans (min3_le_2 _ _ _) (min3_le_1 _ _ _)
    · exact le_trans (min3_le_3 _ _ _) (min3_le_1 _ _ _)
    · exact le_trans (min3_le_1 _ _ _) (min3_le_2 _ _ _)
    · exact le_trans (min3_le_2 _ _ _) (min3_le_2 _ _ _)
    · exact le_trans (min3_le_3 _ _ _) (min3_le_2 _ _ _)
    · exact le_trans (min3_le_1 _ _ _) (min3_le_3 _ _ _)
    · exact le_trans (min3_le_2 _ _ _) (min3_le_3 _ _ _)
    · exact le_trans (min3_le_3 _ _ _) (min3_le_3 _ _ _)

/-- The recurrence also holds when one character is appended at the end
of each string; this is the invariant behind the prefix-table dynamic
program of the script. -/
theorem levSpec_snoc (x y : Char) : ∀ xs ys : List Char,
    levSpec (xs ++ [x]) (ys ++ [y]) =
      min (levSpec xs (ys ++ [y]) + 1)
        (min (levSpec (xs ++ [x]) ys + 1) (levSpec xs ys + levCost x y)) := by
  intro xs
  induction xs with
  | nil =>
    intro ys
    induction ys with
    | nil =>
      simp only [List.nil_append, levSpec, List.length_nil, List.length_cons]
    | cons y' ys' ih =>
      simp only [List.nil_append] at ih ⊢
      simp only [List.cons_append, levSpec, List.length_append, List.length_cons,
        List.length_nil] at ih ⊢
      omega
  | cons x' xs' ih =>
    intro ys
    induction ys with
    | nil =>
      have h1 := ih []
      simp only [List.nil_append] at h1 ⊢
      simp only [List.cons_append, levSpec, levSpec_nil_right, List.length_append,
        List.length_cons, List.length_nil] at h1 ⊢
      omega
    | cons y' ys' ihy =>
      have h1 := ih (y' :: ys')
      have h2 := ih ys'
      simp only [List.cons_append, levSpec, levSpec_nil_right, List.length_append,
        List.length_cons, List.length_nil] at h1 h2 ihy ⊢
      revert h1 h2 ihy
      generalize levSpec (xs' ++ [x]) (y' :: (ys' ++ [y])) = A1
      generalize levSpec xs' (y' :: (ys' ++ [y])) = A2
      generalize levSpec (xs' ++ [x]) (y' :: ys') = A3
      generalize levSpec xs' (y' :: ys') = A4
      generalize levSpec (x' :: (xs' ++ [x])) (ys' ++ [y]) = A5
      generalize levSpec (x' :: xs') (ys' ++ [y]) = A6
      generalize levSpec (x' :: (xs' ++ [x])) ys' = A7
      generalize levSpec (x' :: xs') ys' = A8
      generalize levSpec (xs' ++ [x]) (ys' ++ [y]) = A9
      generalize levSpec xs' (ys' ++ [y]) = A10
      generalize levSpec (xs' ++ [x]) ys' = A11
      generalize levSpec xs' ys' = A12
      generalize levCost x y = c1
      generalize levCost x' y' = c2
      intro h1 h2 ihy
      rw [h1, h2, ihy]
      simp only [← Nat.add_min_add_right]
      simp only [Nat.add_right_comm]
      exact min3_transpose _ _ _ _ _ _ _ _ _

theorem levRowAux_prefRow (x : Char) (A : List Char) : ∀ ys B : List Char,
    levRowAux x ys (prefRow A B ys) (levSpec (A ++ [x]) B) = prefRowTail (A ++ [x]) B ys := by
  intro ys
  induction ys with
  | nil => intro B; rfl
  | cons y ys ih =>
    intro B
    show levRowAux x (y :: ys)
        (levSpec A B :: levSpec A (B ++ [y]) :: prefRowTail A (B ++ [y]) ys)
        (levSpec (A ++ [x]) B) = prefRowTail (A ++ [x]) B (y :: ys)
    rw [levRowAux]
    have hcur : min (levSpec A (B ++ [y]) + 1)
        (min (levSpec (A ++ [x]) B + 1) (levSpec A B + levCost x y))
        = levSpec (A ++ [x]) (B ++ [y]) := (levSpec_snoc x y A B).symm
    rw [hcur]
    show levSpec (A ++ [x]) (B ++ [y]) ::
        levRowAux x ys (prefRow A (B ++ [y]) ys) (levSpec (A ++ [x]) (B ++ [y]))
        = prefRowTail (A ++ [x]) B (y :: ys)
    rw [ih (B ++ [y])]
    rfl

theorem levLoop_prefRow (s2 : List Char) : ∀ cs A : List Char,
    levLoop cs s2 (prefRow A [] s2) (A.length + 1) = prefRow (A ++ cs) [] s2 := by
  intro cs
  induction cs with
  | nil => intro A; simp [levLoop]
  | cons c cs ih =>
    intro A
    rw [levLoop]
    have hlen : A.length + 1 = levSpec (A ++ [c]) [] := by
      rw [levSpec_nil_right]; simp
    rw [hlen, levRowAux_prefRow c A s2 []]
    have hrow : (levSpec (A ++ [c]) [] :: prefRowTail (A ++ [c]) [] s2)
        = prefRow (A ++ [c]) [] s2 := rfl
    rw [hrow]
    have hidx : levSpec (A ++ [c]) [] + 1 = (A ++ [c]).length + 1 := by
      rw [levSpec_nil_right]
    rw [hidx, ih (A ++ [c])]
    simp

theorem prefRow_nil_left : ∀ ys B : List Char,
    prefRow [] B ys = List.range' B.length (ys.length + 1) := by
  intro ys
  induction ys with
  | nil =>
    intro B
    simp [prefRow, prefRowTail, levSpec, List.range']
  | cons y ys ih =>
    intro B
    show levSpec [] B :: prefRow [] (B ++ [y]) ys = _
    rw [ih (B ++ [y])]
    simp [levSpec, List.range']

theorem prefRow_nil_nil (ys : List Char) : prefRow [] [] ys = List.range (ys.length + 1) := by
  rw [prefRow_nil_left, List.range_eq_range']
  rfl

theorem prefRow_getLastD : ∀ (ys A B : List Char) (d : Nat),
    (prefRow A B ys).getLastD d = levSpec A (B ++ ys) := by
  intro ys
  induction ys with
  | nil => intro A B d; simp [prefRow, prefRowTail]
  | cons y ys ih =>
    intro A B d
    show (levSpec A B :: prefRow A (B ++ [y]) ys).getLastD d = _
    rw [List.getLastD_cons, ih A (B ++ [y]) (levSpec A B)]
    simp

/-- The two-row dynamic program of the script computes the textbook
edit-distance recurrence. -/
theorem levenshteinDistance_eq_levSpec (s1 s2 : List Char) :
    levenshteinDistance s1 s2 = levSpec s1 s2 := by
  unfold levenshteinDistance
  split
  · rename_i h; subst h; simp [levSpec]
  · split
    · rename_i h; subst h; rw [levSpec_nil_right]
    · rw [← prefRow_nil_nil s2]
      show (levLoop s1 s2 (prefRow [] [] s2) (([] : List Char).length + 1)).getLastD 0 = _
      rw [levLoop_prefRow s2 s1 [], List.nil_append, prefRow_getLastD, List.nil_append]

theorem editStep_cons_lift {a b : List Char} (x : Char) (h : EditStep a b) :
    EditStep (x :: a) (x :: b) := by
  cases h with
  | ins u v c => exact EditStep.ins (x :: u) v c
  | del u v c => exact EditStep.del (x :: u) v c
  | subst u v c d => exact EditStep.subst (x :: u) v c d

theorem editPath_cons_lift {n : Nat} {a b : List Char} (x : Char) (h : EditPath n a b) :
    EditPath n (x :: a) (x :: b) := by
  induction h with
  | refl a => exact EditPath.refl _
  | step s p ih => exact EditPath.step (editStep_cons_lift x s) ih

theorem EditPath.snoc_step : ∀ {n : Nat} {a b c : List Char},
    EditPath n a b → EditStep b c → EditPath (n + 1) a c := by
  intro n a b c h
  induction h with
  | refl a => intro s; exact EditPath.step s (EditPath.refl _)
  | step s1 p ih => intro s; exact EditPath.step s1 (ih s)

theorem editPath_nil_left : ∀ b : List Char, EditPath b.length [] b := by
  intro b
  induction b with
  | nil => exact EditPath.refl []
  | cons y ys ih => exact ih.snoc_step (EditStep.ins [] ys y)

theorem editPath_nil_right : ∀ a : List Char, EditPath a.length a [] := by
  intro a
  induction a with
  | nil => exact EditPath.refl []
  | cons x xs ih => exact EditPath.step (EditStep.del [] xs x) ih

/-- Upper bound: an edit path of cost levSpec xs ys exists. -/
theorem editPath_levSpec : ∀ xs ys : List Char, EditPath (levSpec xs ys) xs ys := by
  intro xs
  induction xs with
  | nil =>
    intro ys
    have h : levSpec [] ys = ys.length := by simp [levSpec]
    rw [h]
    exact editPath_nil_left ys
  | cons x xs ih =>
    intro ys
    induction ys with
    | nil =>
      rw [levSpec_nil_right]
      exact editPath_nil_right _
    | cons y ys ihy =>
      simp only [levSpec]
      rcases min_cases (levSpec xs (y :: ys) + 1)
          (min (levSpec (x :: xs) ys + 1) (levSpec xs ys + levCost x y)) with ⟨heq, _⟩ | ⟨heq, _⟩
      · rw [heq]
        exact EditPath.step (EditStep.del [] xs x) (ih (y :: ys))
      · rw [heq]
        rcases min_cases (levSpec (x :: xs) ys + 1) (levSpec xs ys + levCost x y) with
          ⟨h2, _⟩ | ⟨h2, _⟩
        · rw [h2]
          exact ihy.snoc_step (EditStep.ins [] ys y)
        · rw [h2]
          by_cases hxy : x = y
          · subst hxy
            rw [show levCost x x = 0 from by simp [levCost], Nat.add_zero]
            exact editPath_cons_lift x (ih ys)
          · rw [show levCost x y = 1 from by simp [levCost, hxy]]
            exact (editPath_cons_lift x (ih ys)).snoc_step (EditStep.subst [] ys x y)

theorem levSpec_le_cons_right (a : List Char) (y : Char) (ys : List Char) :
    levSpec a (y :: ys) ≤ levSpec a ys + 1 := by
  cases a with
  | nil => simp [levSpec]
  | cons x xs =>
    simp only [levSpec]
    exact min3_le_2 _ _ _

theorem levSpec_le_ins (c : Char) : ∀ u v t : List Char,
    levSpec (u ++ v) t ≤ levSpec (u ++ c :: v) t + 1 := by
  intro u
  induction u with
  | nil =>
    intro v t
    simp only [List.nil_append]
    induction t with
    | nil =>
      rw [levSpec_nil_right, levSpec_nil_right]
      simp only [List.length_append, List.length_cons]
      omega
    | cons y ys iht =>
      have hR := levSpec_le_cons_right v y ys
      simp only [levSpec]
      omega
  | cons w u' ihu =>
    intro v t
    induction t with
    | nil =>
      rw [levSpec_nil_right, levSpec_nil_right]
      simp only [List.length_append, List.length_cons]
      omega
    | cons y ys iht =>
      have h1 := ihu v (y :: ys)
      have h2 := ihu v ys
      simp only [List.cons_append, levSpec] at iht h1 h2 ⊢
      omega

theorem levSpec_le_del (c : Char) : ∀ u v t : List Char,
    levSpec (u ++ c :: v) t ≤ levSpec (u ++ v) t + 1 := by
  intro u
  induction u with
  | nil =>
    intro v t
    cases t with
    | nil =>
      rw [levSpec_nil_right, levSpec_nil_right]
      simp only [List.length_append, List.length_cons]
      omega
    | cons y ys =>
      simp only [List.nil_append, levSpec]
      omega
  | cons w u' ihu =>
    intro v t
    induction t with
    | nil =>
      rw [levSpec_nil_right, levSpec_nil_right]
      simp only [List.length_append, List.length_cons]
      omega
    | cons y ys iht =>
      have h1 := ihu v (y :: ys)
      have h2 := ihu v ys
      simp only [List.cons_append, levSpec] at iht h1 h2 ⊢
      omega

theorem levSpec_le_subst (c d : Char) : ∀ u v t : List Char,
    levSpec (u ++ c :: v) t ≤ levSpec (u ++ d :: v) t + 1 := by
  intro u
  induction u with
  | nil =>
    intro v t
    induction t with
    | nil =>
      rw [levSpec_nil_right, levSpec_nil_right]
      simp only [List.length_append, List.length_cons]
      omega
    | cons y ys iht =>
      have hc := levCost_le_one c y
      simp only [List.nil_append, levSpec] at iht ⊢
      omega
  | cons w u' ihu =>
    intro v t
    induction t with
    | nil =>
      rw [levSpec_nil_right, levSpec_nil_right]
      simp only [List.length_append, List.length_cons]
      omega
    | cons y ys iht =>
      have h1 := ihu v (y :: ys)
      have h2 := ihu v ys
      simp only [List.cons_append, levSpec] at iht h1 h2 ⊢
      omega

theorem levSpec_le_of_editStep {a b : List Char} (s : EditStep a b) (t : List Char) :
    levSpec a t ≤ levSpec b t + 1 := by
  cases s with
  | ins u v c => exact levSpec_le_ins c u v t
  | del u v c => exact levSpec_le_del c u v t
  | subst u v c d => exact levSpec_le_subst c d u v t

/-- Lower bound: no edit path is shorter than levSpec. -/
theorem levSpec_le_editPath : ∀ {n : Nat} {a b : List Char}, EditPath n a b → levSpec a b ≤ n := by
  intro n a b h
  induction h with
  | refl a => rw [levSpec_self]
  | @step m a b c s p ih =>
    have hs := levSpec_le_of_editStep s c
    omega

theorem levSpec_le_max : ∀ xs ys : List Char, levSpec xs ys ≤ max xs.length ys.length := by
  intro xs
  induction xs with
  | nil => intro ys; simp [levSpec]
  | cons x xs ih =>
    intro ys
    cases ys with
    | nil =>
      rw [levSpec_nil_right]
      simp
    | cons y ys =>
      have h := ih ys
      have hc := levCost_le_one x y
      simp only [levSpec, List.length_cons]
      omega

theorem levSpec_comm : ∀ xs ys : List Char, levSpec xs ys = levSpec ys xs := by
  intro xs
  induction xs with
  | nil => intro ys; simp [levSpec, levSpec_nil_right]
  | cons x xs ih =>
    intro ys
    induction ys with
    | nil => simp [levSpec, levSpec_nil_right]
    | cons y ys ihy =>
      have h1 := ih (y :: ys)
      have h2 := ih ys
      have hc := levCost_comm x y
      simp only [levSpec]
      rw [h1, h2, hc, ihy]
      exact min_left_comm _ _ _

theorem levenshteinDistance_comm (a b : List Char) :
    levenshteinDistance a b = levenshteinDistance b a := by
  rw [levenshteinDistance_eq_levSpec, levenshteinDistance_eq_levSpec, levSpec_comm]

/-! ## Bounds and symmetry of the similarity primitives -/

theorem jaccardSimilarity_self (a : List Char) : jaccardSimilarity a a = 1 := by
  by_cases h : a = []
  · simp [jaccardSimilarity, h]
  · by_cases hc : (tokensOf a).toFinset.card = 0
    · simp [jaccardSimilarity, h, hc]
    · simp [jaccardSimilarity, h, hc]

theorem jaccardSimilarity_comm (a b : List Char) :
    jaccardSimilarity a b = jaccardSimilarity b a := by
  simp only [jaccardSimilarity, and_comm, or_comm, Finset.inter_comm, Finset.union_comm]

theorem jaccardSimilarity_nonneg (a b : List Char) : 0 ≤ jaccardSimilarity a b := by
  simp only [jaccardSimilarity]
  split_ifs with h1 h2 h3 h4
  · norm_num
  · norm_num
  · norm_num
  · norm_num
  · exact div_nonneg (Nat.cast_nonneg _) (Nat.cast_nonneg _)

theorem jaccardSimilarity_le_one (a b : List Char) : jaccardSimilarity a b ≤ 1 := by
  simp only [jaccardSimilarity]
  split_ifs with h1 h2 h3 h4
  · norm_num
  · norm_num
  · norm_num
  · norm_num
  · have hne : (tokensOf a).toFinset.card ≠ 0 := fun hcc => h4 (Or.inl hcc)
    have hle : (tokensOf a).toFinset.card ≤ ((tokensOf a).toFinset ∪ (tokensOf b).toFinset).card :=
      Finset.card_le_card Finset.subset_union_left
    have hpos : (0 : ℚ) < (((tokensOf a).toFinset ∪ (tokensOf b).toFinset).card : ℚ) := by
      exact_mod_cast Nat.pos_of_ne_zero (by omega)
    rw [div_le_one hpos]
    exact_mod_cast Finset.card_le_card Finset.inter_subset_union

theorem levenshteinSimilarity_nonneg (a b : List Char) : 0 ≤ levenshteinSimilarity a b := by
  simp only [levenshteinSimilarity]
  split_ifs with h1 h2 h3
  · norm_num
  · norm_num
  · norm_num
  · rw [sub_nonneg]
    have hpos : (0 : ℚ) < ((max a.length b.length : Nat) : ℚ) := by
      exact_mod_cast Nat.pos_of_ne_zero h3
    rw [div_le_one hpos]
    rw [levenshteinDistance_eq_levSpec]
    exact_mod_cast levSpec_le_max a b

theorem levenshteinSimilarity_le_one (a b : List Char) : levenshteinSimilarity a b ≤ 1 := by
  simp only [levenshteinSimilarity]
  split_ifs with h1 h2 h3
  · norm_num
  · norm_num
  · norm_num
  · have hdiv : (0 : ℚ) ≤ (levenshteinDistance a b : ℚ) / ((max a.length b.length : Nat) : ℚ) :=
      div_nonneg (Nat.cast_nonneg _) (Nat.cast_nonneg _)
    linarith

theorem levenshteinSimilarity_comm (a b : List Char) :
    levenshteinSimilarity a b = levenshteinSimilarity b a := by
  simp only [levenshteinSimilarity, and_comm, or_comm, Nat.max_comm, levenshteinDistance_comm a b]

theorem combinedTitleSimilarity_comm (a b : List Char) (f : Bool) :
    combinedTitleSimilarity a b f = combinedTitleSimilarity b a f := by
  simp only [combinedTitleSimilarity, jaccardSimilarity_comm a b, levenshteinSimilarity_comm a b,
    add_comm ((a.length : ℚ)) ((b.length : ℚ))]

theorem combinedTitleSimilarity_nonneg (a b : List Char) (f : Bool) :
    0 ≤ combinedTitleSimilarity a b f := by
  simp only [combinedTitleSimilarity]
  split_ifs with hf
  · exact jaccardSimilarity_nonneg a b
  · have hj0 := jaccardSimilarity_nonneg a b
    have hl0 := levenshteinSimilarity_nonneg a b
    have hw0 : (0 : ℚ) ≤ max 0 (1 - ((a.length : ℚ) + (b.length : ℚ)) / 2 / 100) :=
      le_max_left 0 _
    have hw1 : max 0 (1 - ((a.length : ℚ) + (b.length : ℚ)) / 2 / 100) ≤ 1 := by
      apply max_le
      · norm_num
      · have ha : (0 : ℚ) ≤ (a.length : ℚ) := Nat.cast_nonneg _
        have hb : (0 : ℚ) ≤ (b.length : ℚ) := Nat.cast_nonneg _
        nlinarith
    nlinarith

theorem combinedTitleSimilarity_le_one (a b : List Char) (f : Bool) :
    combinedTitleSimilarity a b f ≤ 1 := by
  simp only [combinedTitleSimilarity]
  split_ifs with hf
  · exact jaccardSimilarity_le_one a b
  · have hj0 := jaccardSimilarity_nonneg a b
    have hj1 := jaccardSimilarity_le_one a b
    have hl0 := levenshteinSimilarity_nonneg a b
    have hl1 := levenshteinSimilarity_le_one a b
    have hw0 : (0 : ℚ) ≤ max 0 (1 - ((a.length : ℚ) + (b.length : ℚ)) / 2 / 100) :=
      le_max_left 0 _
    have hw1 : max 0 (1 - ((a.length : ℚ) + (b.length : ℚ)) / 2 / 100) ≤ 1 := by
      apply max_le
      · norm_num
      · have ha : (0 : ℚ) ≤ (a.length : ℚ) := Nat.cast_nonneg _
        have hb : (0 : ℚ) ≤ (b.length : ℚ) := Nat.cast_nonneg _
        nlinarith
    nlinarith [mul_nonneg (sub_nonneg.mpr hj1)
        (sub_nonneg.mpr (le_max_left (0 : ℚ) (1 - ((a.length : ℚ) + (b.length : ℚ)) / 2 / 100))),
      mul_nonneg (sub_nonneg.mpr hl1) hw0]

theorem urlFieldSim_comm (i1 i2 : NormalizedItem) : urlFieldSim i1 i2 = urlFieldSim i2 i1 := by
  unfold urlFieldSim
  have hiff : (i1.URL ≠ [] ∧ i2.URL ≠ [] ∧ i1.URL = i2.URL)
      ↔ (i2.URL ≠ [] ∧ i1.URL ≠ [] ∧ i2.URL = i1.URL) := by
    constructor <;> rintro ⟨h1, h2, h3⟩ <;> exact ⟨h2, h1, h3.symm⟩
  rw [if_congr hiff rfl (jaccardSimilarity_comm _ _)]

theorem doiFieldSim_comm (i1 i2 : NormalizedItem) : doiFieldSim i1 i2 = doiFieldSim i2 i1 := by
  unfold doiFieldSim
  have hiff : (i1.DOI ≠ [] ∧ i2.DOI ≠ [] ∧ i1.DOI = i2.DOI)
      ↔ (i2.DOI ≠ [] ∧ i1.DOI ≠ [] ∧ i2.DOI = i1.DOI) := by
    constructor <;> rintro ⟨h1, h2, h3⟩ <;> exact ⟨h2, h1, h3.symm⟩
  rw [if_congr hiff rfl rfl]

theorem dateFieldSim_comm (i1 i2 : NormalizedItem) : dateFieldSim i1 i2 = dateFieldSim i2 i1 := by
  unfold dateFieldSim
  have hiff : (i1.year ≠ [] ∧ i2.year ≠ [] ∧ i1.year = i2.year)
      ↔ (i2.year ≠ [] ∧ i1.year ≠ [] ∧ i2.year = i1.year) := by
    constructor <;> rintro ⟨h1, h2, h3⟩ <;> exact ⟨h2, h1, h3.symm⟩
  rw [if_congr hiff rfl (jaccardSimilarity_comm _ _)]

theorem urlFieldSim_nonneg (i1 i2 : NormalizedItem) : 0 ≤ urlFieldSim i1 i2 := by
  unfold urlFieldSim
  split_ifs
  · norm_num
  · exact jaccardSimilarity_nonneg _ _

theorem urlFieldSim_le_one (i1 i2 : NormalizedItem) : urlFieldSim i1 i2 ≤ 1 := by
  unfold urlFieldSim
  split_ifs
  · norm_num
  · exact jaccardSimilarity_le_one _ _

theorem doiFieldSim_nonneg (i1 i2 : NormalizedItem) : 0 ≤ doiFieldSim i1 i2 := by
  unfold doiFieldSim
  split_ifs <;> norm_num

theorem doiFieldSim_le_one (i1 i2 : NormalizedItem) : doiFieldSim i1 i2 ≤ 1 := by
  unfold doiFieldSim
  split_ifs <;> norm_num

theorem dateFieldSim_nonneg (i1 i2 : NormalizedItem) : 0 ≤ dateFieldSim i1 i2 := by
  unfold dateFieldSim
  split_ifs
  · norm_num
  · exact jaccardSimilarity_nonneg _ _

theorem dateFieldSim_le_one (i1 i2 : NormalizedItem) : dateFieldSim i1 i2 ≤ 1 := by
  unfold dateFieldSim
  split_ifs
  · norm_num
  · exact jaccardSimilarity_le_one _ _

theorem accStep_fst (s : ℚ × ℚ) (c : Prop) [Decidable c] (sim w : ℚ) :
    (accStep s c sim w).1 = s.1 + (if c then sim * w else 0) := by
  unfold accStep
  split
  · rfl
  · rw [add_zero]

theorem accStep_snd (s : ℚ × ℚ) (c : Prop) [Decidable c] (sim w : ℚ) :
    (accStep s c sim w).2 = s.2 + (if c then w else 0) := by
  unfold accStep
  split
  · rfl
  · rw [add_zero]

theorem accStep_bounds {s : ℚ × ℚ} (c : Prop) [Decidable c] {sim w : ℚ}
    (h0 : 0 ≤ s.1) (h1 : s.1 ≤ s.2) (hs0 : 0 ≤ sim) (hs1 : sim ≤ 1) (hw : c → 0 < w) :
    0 ≤ (accStep s c sim w).1 ∧ (accStep s c sim w).1 ≤ (accStep s c sim w).2 := by
  unfold accStep
  split
  · rename_i hc
    have hwp := hw hc
    constructor
    · show 0 ≤ s.1 + sim * w
      have := mul_nonneg hs0 hwp.le
      linarith
    · show s.1 + sim * w ≤ s.2 + w
      have : sim * w ≤ w := by nlinarith
      linarith
  · exact ⟨h0, h1⟩

/-! ## Weight normalization lemmas -/

theorem normalizeWeights_sum_one (w : Weights) (h : 0 < weightsSum w) :
    weightsSum (normalizeWeights w) = 1 := by
  have hne : weightsSum w ≠ 0 := ne_of_gt h
  rw [normalizeWeights, if_neg hne]
  show w.URL / weightsSum w + w.DOI / weightsSum w + w.title / weightsSum w
    + w.creators / weightsSum w + w.date / weightsSum w + w.publisher / weightsSum w
    + w.journal / weightsSum w + w.shortTitle / weightsSum w + w.place / weightsSum w
    + w.ISBN / weightsSum w + w.itemType / weightsSum w = 1
  rw [div_add_div_same, div_add_div_same, div_add_div_same, div_add_div_same,
    div_add_div_same, div_add_div_same, div_add_div_same, div_add_div_same,
    div_add_div_same, div_add_div_same]
  exact div_self hne

theorem normalizeWeights_all_zero (w : Weights)
    (h : w.URL = 0 ∧ w.DOI = 0 ∧ w.title = 0 ∧ w.creators = 0 ∧ w.date = 0 ∧ w.publisher = 0
      ∧ w.journal = 0 ∧ w.shortTitle = 0 ∧ w.place = 0 ∧ w.ISBN = 0 ∧ w.itemType = 0) :
    normalizeWeights w = w := by
  obtain ⟨h1, h2, h3, h4, h5, h6, h7, h8, h9, h10, h11⟩ := h
  have hsum : weightsSum w = 0 := by
    rw [weightsSum, h1, h2, h3, h4, h5, h6, h7, h8, h9, h10, h11]
    norm_num
  rw [normalizeWeights, if_pos hsum]

/-! ## Scorer-level lemmas -/

theorem calculateSimilarity_spec (item1 item2 : NormalizedItem) (w : Weights) (f rst : Bool)
    (hveto : ¬(rst = true ∧ item1.itemType ≠ item2.itemType)) :
    calculateSimilarity item1 item2 w f rst =
      if 0 < specAccWeight w rst then
        specAccSim item1 item2 w f rst / specAccWeight w rst
      else 0 := by
  simp only [calculateSimilarity]
  rw [if_neg hveto]
  simp only [accStep_fst, accStep_snd, zero_add, specAccSim, specAccWeight]

theorem calculateSimilarity_bounds (item1 item2 : NormalizedItem) (w : Weights) (f rst : Bool) :
    0 ≤ calculateSimilarity item1 item2 w f rst ∧ calculateSimilarity item1 item2 w f rst ≤ 1 := by
  by_cases hveto : rst = true ∧ item1.itemType ≠ item2.itemType
  · simp only [calculateSimilarity]
    rw [if_pos hveto]
    norm_num
  · simp only [calculateSimilarity]
    rw [if_neg hveto]
    have b0 : (0 : ℚ) ≤ (((0 : ℚ), (0 : ℚ)) : ℚ × ℚ).1
        ∧ (((0 : ℚ), (0 : ℚ)) : ℚ × ℚ).1 ≤ (((0 : ℚ), (0 : ℚ)) : ℚ × ℚ).2 := by norm_num
    have b1 := accStep_bounds (0 < w.URL) b0.1 b0.2
      (urlFieldSim_nonneg item1 item2) (urlFieldSim_le_one item1 item2) (fun hc => hc)
    have b2 := accStep_bounds (0 < w.DOI) b1.1 b1.2
      (doiFieldSim_nonneg item1 item2) (doiFieldSim_le_one item1 item2) (fun hc => hc)
    have b3 := accStep_bounds (0 < w.title) b2.1 b2.2
      (combinedTitleSimilarity_nonneg item1.title item2.title f)
      (combinedTitleSimilarity_le_one item1.title item2.title f) (fun hc => hc)
    have b4 := accStep_bounds (0 < w.creators) b3.1 b3.2
      (jaccardSimilarity_nonneg item1.creators item2.creators)
      (jaccardSimilarity_le_one item1.creators item2.creators) (fun hc => hc)
    have b5 := accStep_bounds (0 < w.date) b4.1 b4.2
      (dateFieldSim_nonneg item1 item2) (dateFieldSim_le_one item1 item2) (fun hc => hc)
    have b6 := accStep_bounds (0 < w.publisher) b5.1 b5.2
      (jaccardSimilarity_nonneg item1.publisher item2.publisher)
      (jaccardSimilarity_le_one item1.publisher item2.publisher) (fun hc => hc)
    have b7 := accStep_bounds (0 < w.journal) b6.1 b6.2
      (jaccardSimilarity_nonneg item1.journal item2.journal)
      (jaccardSimilarity_le_one item1.journal item2.journal) (fun hc => hc)
    have b8 := accStep_bounds (0 < w.shortTitle) b7.1 b7.2
      (jaccardSimilarity_nonneg item1.shortTitle item2.shortTitle)
      (jaccardSimilarity_le_one item1.shortTitle item2.shortTitle) (fun hc => hc)
    have b9 := accStep_bounds (0 < w.place) b8.1 b8.2
      (jaccardSimilarity_nonneg item1.place item2.place)
      (jaccardSimilarity_le_one item1.place item2.place) (fun hc => hc)
    have b10 := accStep_bounds (0 < w.ISBN) b9.1 b9.2
      (jaccardSimilarity_nonneg item1.ISBN item2.ISBN)
      (jaccardSimilarity_le_one item1.ISBN item2.ISBN) (fun hc => hc)
    have b11 := accStep_bounds (0 < w.itemType ∧ rst = true) b10.1 b10.2
      (zero_le_one) (le_refl 1) (fun hc => hc.1)
    split_ifs with hpos
    · constructor
      · exact div_nonneg b11.1 (le_of_lt hpos)
      · rw [div_le_one hpos]
        exact b11.2
    · norm_num

theorem calculateSimilarity_zero_weights (item1 item2 : NormalizedItem) (w : Weights)
    (f rst : Bool)
    (h : w.URL ≤ 0 ∧ w.DOI ≤ 0 ∧ w.title ≤ 0 ∧ w.creators ≤ 0 ∧ w.date ≤ 0 ∧ w.publisher ≤ 0
      ∧ w.journal ≤ 0 ∧ w.shortTitle ≤ 0 ∧ w.place ≤ 0 ∧ w.ISBN ≤ 0 ∧ w.itemType ≤ 0) :
    calculateSimilarity item1 item2 w f rst = 0 := by
  obtain ⟨h1, h2, h3, h4, h5, h6, h7, h8, h9, h10, h11⟩ := h
  by_cases hveto : rst = true ∧ item1.itemType ≠ item2.itemType
  · simp only [calculateSimilarity]
    rw [if_pos hveto]
  · rw [calculateSimilarity_spec item1 item2 w f rst hveto]
    have hzero : specAccWeight w rst = 0 := by
      rw [specAccWeight, if_neg (not_lt.mpr h1), if_neg (not_lt.mpr h2), if_neg (not_lt.mpr h3),
        if_neg (not_lt.mpr h4), if_neg (not_lt.mpr h5), if_neg (not_lt.mpr h6),
        if_neg (not_lt.mpr h7), if_neg (not_lt.mpr h8), if_neg (not_lt.mpr h9),
        if_neg (not_lt.mpr h10), if_neg (fun hc => absurd hc.1 (not_lt.mpr h11))]
      norm_num
    rw [hzero]
    norm_num

theorem calculateSimilarity_comm (item1 item2 : NormalizedItem) (w : Weights) (f rst : Bool) :
    calculateSimilarity item1 item2 w f rst = calculateSimilarity item2 item1 w f rst := by
  have hne : (item1.itemType ≠ item2.itemType) = (item2.itemType ≠ item1.itemType) :=
    propext ⟨Ne.symm, Ne.symm⟩
  simp only [calculateSimilarity, hne, urlFieldSim_comm item1 item2, doiFieldSim_comm item1 item2,
    dateFieldSim_comm item1 item2, combinedTitleSimilarity_comm item1.title item2.title,
    jaccardSimilarity_comm item1.creators item2.creators,
    jaccardSimilarity_comm item1.publisher item2.publisher,
    jaccardSimilarity_comm item1.journal item2.journal,
    jaccardSimilarity_comm item1.shortTitle item2.shortTitle,
    jaccardSimilarity_comm item1.place item2.place,
    jaccardSimilarity_comm item1.ISBN item2.ISBN]

/-! ## Detector-level lemmas -/

theorem pairLE_trans : ∀ a b c : DupPair, pairLE a b → pairLE b c → pairLE a c := by
  intro a b c hab hbc
  simp only [pairLE, decide_eq_true_eq] at *
  exact le_trans hbc hab

theorem pairLE_total : ∀ a b : DupPair, pairLE a b || pairLE b a := by
  intro a b
  simp only [pairLE]
  rcases le_total a.similarity b.similarity with h | h
  · simp [h]
  · simp [h]

theorem detectDuplicates_ok (items : List RawItem) (threshold : ℚ) (weights : Weights)
    (em f rst : Bool) (norm : List NormalizedItem)
    (hnorm : items.mapM normalizeItemFields = Except.ok norm) :
    detectDuplicates items threshold weights em f rst =
      Except.ok ((collectCandidates norm threshold weights em f rst).mergeSort pairLE) := by
  unfold detectDuplicates
  rw [hnorm]
  rfl

theorem mem_allPairs_of_get : ∀ (l : List NormalizedItem) (i j : Nat) (hij : i < j)
    (hj : j < l.length), (l.get ⟨i, lt_trans hij hj⟩, l.get ⟨j, hj⟩) ∈ allPairs l := by
  intro l
  induction l with
  | nil =>
    intro i j hij hj
    simp at hj
  | cons x xs ih =>
    intro i j hij hj
    cases i with
    | zero =>
      cases j with
      | zero => exact absurd hij (lt_irrefl 0)
      | succ j' =>
        apply List.mem_append_left
        apply List.mem_map.mpr
        exact ⟨xs.get ⟨j', Nat.lt_of_succ_lt_succ hj⟩, List.get_mem xs j' _, rfl⟩
    | succ i' =>
      cases j with
      | zero => exact absurd hij (by omega)
      | succ j' =>
        apply List.mem_append_right
        exact ih i' j' (by omega) (Nat.lt_of_succ_lt_succ hj)

theorem comparePair_exact (item1 item2 : NormalizedItem) (threshold : ℚ) (w : Weights)
    (f rst : Bool)
    (hmatch : (item1.URL ≠ [] ∧ item1.URL = item2.URL)
      ∨ (item1.DOI ≠ [] ∧ item1.DOI = item2.DOI)) :
    ∃ reason, comparePair item1 item2 threshold w true f rst
      = some (DupPair.mk item1 item2 1 reason) := by
  rcases hmatch with ⟨hne, heq⟩ | ⟨hne, heq⟩
  · have hcond : item1.URL ≠ [] ∧ item2.URL ≠ [] ∧ item1.URL = item2.URL :=
      ⟨hne, heq ▸ hne, heq⟩
    exact ⟨exactTag ++ urlTag ++ matchTag ++ item1.URL ++ typeNote item1 item2,
      by simp [comparePair, checkExactIdentifierMatch, hcond]⟩
  · by_cases hurl : item1.URL ≠ [] ∧ item2.URL ≠ [] ∧ item1.URL = item2.URL
    · exact ⟨exactTag ++ urlTag ++ matchTag ++ item1.URL ++ typeNote item1 item2,
        by simp [comparePair, checkExactIdentifierMatch, hurl]⟩
    · have hcond : item1.DOI ≠ [] ∧ item2.DOI ≠ [] ∧ item1.DOI = item2.DOI :=
        ⟨hne, heq ▸ hne, heq⟩
      exact ⟨exactTag ++ doiTag ++ matchTag ++ item1.DOI ++ typeNote item1 item2,
        by simp [comparePair, checkExactIdentifierMatch, hurl, hcond]⟩

/-! ## The claims -/

/-- C1: the claim says a record that errors during normalization must not
abort the whole detectDuplicates run, that the record is skipped, and that
candidate pairs accumulated before the failure remain retrievable. The
code has no per-record catch in the normalization loop, so one throwing
record aborts the whole run with its error and no pair list is returned,
although the same input without the bad record yields a nonempty
candidate list. This theorem evaluates the code at such a failing input. -/
theorem C1_normalization_error_aborts_run :
    detectDuplicates [rawItemA, rawItemB, rawItemBad] (6/10) defaultWeights true true false
      = Except.error "boom"
    ∧ ∃ ps, detectDuplicates [rawItemA, rawItemB] (6/10) defaultWeights true true false
        = Except.ok ps ∧ ps.length = 1 := by
  constructor
  · rfl
  · refine ⟨(collectCandidates [normA, normB] (6/10) defaultWeights true true false).mergeSort
      pairLE, detectDuplicates_ok _ _ _ _ _ _ [normA, normB] (by rfl), ?_⟩
    rw [(List.mergeSort_perm _ pairLE).length_eq]
    rfl

/-- C2: with useExactMatch on, any pair of compared records with equal
non-empty normalized URLs, or failing that equal non-empty normalized
DOIs, yields a candidate pair of similarity exactly 1 in the output,
for every threshold and even when requireSameType is on and the item
types differ (the fast path ignores the veto). -/
theorem C2_exact_identifier_fast_path
    (items : List RawItem) (threshold : ℚ) (weights : Weights) (useFuzzyTitle requireSameType : Bool)
    (res : List DupPair) (norm : List NormalizedItem)
    (hnorm : items.mapM normalizeItemFields = Except.ok norm)
    (hres : detectDuplicates items threshold weights true useFuzzyTitle requireSameType
      = Except.ok res)
    (i j : Nat) (hij : i < j) (hj : j < norm.length) (r1 r2 : NormalizedItem)
    (hr1 : r1 = norm.get ⟨i, lt_trans hij hj⟩) (hr2 : r2 = norm.get ⟨j, hj⟩)
    (hmatch : (r1.URL ≠ [] ∧ r1.URL = r2.URL) ∨ (r1.DOI ≠ [] ∧ r1.DOI = r2.DOI)) :
    ∃ reason, DupPair.mk r1 r2 1 reason ∈ res := by
  rw [detectDuplicates_ok items threshold weights true useFuzzyTitle requireSameType norm hnorm]
    at hres
  injection hres with hres
  obtain ⟨reason, hcp⟩ :=
    comparePair_exact r1 r2 threshold weights useFuzzyTitle requireSameType hmatch
  refine ⟨reason, ?_⟩
  rw [← hres]
  apply (List.mergeSort_perm _ pairLE).mem_iff.mpr
  apply List.mem_filterMap.mpr
  refine ⟨(r1, r2), ?_, hcp⟩
  rw [hr1, hr2]
  exact mem_allPairs_of_get norm i j hij hj

theorem C2_exact_identifier_fast_path_witness :
    ∃ reason, DupPair.mk normA normB 1 reason ∈
      ((collectCandidates [normA, normB] 2 defaultWeights true true true).mergeSort pairLE) :=
  C2_exact_identifier_fast_path [rawItemA, rawItemB] 2 defaultWeights true true
    ((collectCandidates [normA, normB] 2 defaultWeights true true true).mergeSort pairLE)
    [normA, normB] (by rfl) (by rfl) 0 1 (by decide) (by decide) normA normB rfl rfl
    (Or.inl ⟨by decide, rfl⟩)

/-- C3: with requireSameType set, two normalized records of different
item types score 0, for every weight vector and every fuzzy-title flag. -/
theorem C3_same_type_hard_veto (item1 item2 : NormalizedItem) (w : Weights) (f : Bool)
    (h : item1.itemType ≠ item2.itemType) :
    calculateSimilarity item1 item2 w f true = 0 := by
  unfold calculateSimilarity
  rw [if_pos (⟨rfl, h⟩ : (true : Bool) = true ∧ item1.itemType ≠ item2.itemType)]

theorem C3_same_type_hard_veto_witness :
    calculateSimilarity normA normB defaultWeights true true = 0 :=
  C3_same_type_hard_veto normA normB defaultWeights true (by decide)

/-- C4: the pairwise score always lies in the interval from 0 to 1; when
the same-type veto does not fire it equals the accumulated per-field
similarity divided by the accumulated weight over the fields with
positive weight; and it equals 0 when no field has positive weight. -/
theorem C4_score_weighted_average :
    (∀ (item1 item2 : NormalizedItem) (w : Weights) (f rst : Bool),
      0 ≤ calculateSimilarity item1 item2 w f rst ∧ calculateSimilarity item1 item2 w f rst ≤ 1)
    ∧ (∀ (item1 item2 : NormalizedItem) (w : Weights) (f rst : Bool),
        ¬(rst = true ∧ item1.itemType ≠ item2.itemType) →
        calculateSimilarity item1 item2 w f rst =
          if 0 < specAccWeight w rst then specAccSim item1 item2 w f rst / specAccWeight w rst
          else 0)
    ∧ (∀ (item1 item2 : NormalizedItem) (w : Weights) (f rst : Bool),
        (w.URL ≤ 0 ∧ w.DOI ≤ 0 ∧ w.title ≤ 0 ∧ w.creators ≤ 0 ∧ w.date ≤ 0 ∧ w.publisher ≤ 0
          ∧ w.journal ≤ 0 ∧ w.shortTitle ≤ 0 ∧ w.place ≤ 0 ∧ w.ISBN ≤ 0 ∧ w.itemType ≤ 0) →
        calculateSimilarity item1 item2 w f rst = 0) :=
  ⟨calculateSimilarity_bounds, calculateSimilarity_spec, calculateSimilarity_zero_weights⟩

theorem C4_score_weighted_average_witness :
    (0 ≤ calculateSimilarity normA normB defaultWeights true false
      ∧ calculateSimilarity normA normB defaultWeights true false ≤ 1)
    ∧ calculateSimilarity normA normB defaultWeights true false =
        (if 0 < specAccWeight defaultWeights false then
          specAccSim normA normB defaultWeights true false / specAccWeight defaultWeights false
        else 0)
    ∧ calculateSimilarity normA normB zeroWeights true false = 0 :=
  ⟨C4_score_weighted_average.1 normA normB defaultWeights true false,
   C4_score_weighted_average.2.1 normA normB defaultWeights true false (by decide),
   C4_score_weighted_average.2.2 normA normB zeroWeights true false
     ⟨le_refl 0, le_refl 0, le_refl 0, le_refl 0, le_refl 0, le_refl 0, le_refl 0, le_refl 0,
      le_refl 0, le_refl 0, le_refl 0⟩⟩

/-- C5: with fuzzy matching off the title similarity is the token-set
similarity; with it on it is the length-weighted blend of token-set and
edit similarity, with editWeight = max 0 (1 - avgLength / 100). -/
theorem C5_title_blend : ∀ t1 t2 : List Char,
    combinedTitleSimilarity t1 t2 false = jaccardSimilarity t1 t2
    ∧ combinedTitleSimilarity t1 t2 true =
        jaccardSimilarity t1 t2 * (1 - max 0 (1 - ((t1.length : ℚ) + (t2.length : ℚ)) / 2 / 100))
        + levenshteinSimilarity t1 t2 * max 0 (1 - ((t1.length : ℚ) + (t2.length : ℚ)) / 2 / 100) :=
  fun t1 t2 => ⟨rfl, rfl⟩

/-- C6: tokenSetSimilarity returns 1 when both strings are empty, 0 when
exactly one is, and otherwise the Jaccard index over the whitespace token
sets (two empty token sets counting as identical); and it is 1 on every
pair of equal strings. -/
theorem C6_token_set_similarity : ∀ a b : List Char,
    jaccardSimilarity a b = tokenSetSimilaritySpec a b ∧ jaccardSimilarity a a = 1 := by
  intro a b
  refine ⟨?_, jaccardSimilarity_self a⟩
  by_cases h1 : a = [] ∧ b = []
  · obtain ⟨ha, hb⟩ := h1
    subst ha
    subst hb
    simp [jaccardSimilarity, tokenSetSimilaritySpec]
  · by_cases h2 : a = [] ∨ b = []
    · simp only [jaccardSimilarity, tokenSetSimilaritySpec, if_neg h1, if_pos h2]
    · simp only [jaccardSimilarity, tokenSetSimilaritySpec, if_neg h1, if_neg h2, jaccardIndexSpec]
      by_cases hc1 : (tokensOf a).toFinset.card = 0
      · by_cases hc2 : (tokensOf b).toFinset.card = 0
        · rw [if_pos ⟨hc1, hc2⟩]
          rw [Finset.card_eq_zero] at hc1 hc2
          rw [if_pos (by rw [hc1, hc2]; exact Finset.empty_union ∅)]
        · rw [if_neg (fun hcc => hc2 hcc.2), if_pos (Or.inl hc1)]
          have hne : ¬((tokensOf a).toFinset ∪ (tokensOf b).toFinset = ∅) := by
            intro hu
            exact hc2 (by
              rw [Finset.card_eq_zero]
              exact Finset.subset_empty.mp (hu ▸ Finset.subset_union_right))
          rw [Finset.card_eq_zero] at hc1
          rw [if_neg hne, hc1]
          simp
      · by_cases hc2 : (tokensOf b).toFinset.card = 0
        · rw [if_neg (fun hcc => hc1 hcc.1), if_pos (Or.inr hc2)]
          have hne : ¬((tokensOf a).toFinset ∪ (tokensOf b).toFinset = ∅) := by
            intro hu
            exact hc1 (by
              rw [Finset.card_eq_zero]
              exact Finset.subset_empty.mp (hu ▸ Finset.subset_union_left))
          rw [Finset.card_eq_zero] at hc2
          rw [if_neg hne, hc2]
          simp
        · rw [if_neg (fun hcc => hc1 hcc.1), if_neg (fun hcc => hcc.elim hc1 hc2)]
          have hne : ¬((tokensOf a).toFinset ∪ (tokensOf b).toFinset = ∅) := by
            intro hu
            exact hc1 (by
              rw [Finset.card_eq_zero]
              exact Finset.subset_empty.mp (hu ▸ Finset.subset_union_left))
          rw [if_neg hne]

/-- C7: levenshteinDistance computes the least number of unit-cost
insertions, deletions and substitutions turning one string into the
other; an empty side gives the other side's length; and the distance
from kitten to sitting is 3. -/
theorem C7_edit_distance_minimal :
    (∀ a b : List Char, IsLeast {n : Nat | EditPath n a b} (levenshteinDistance a b))
    ∧ (∀ b : List Char, levenshteinDistance [] b = b.length)
    ∧ (∀ a : List Char, levenshteinDistance a [] = a.length)
    ∧ levenshteinDistance ('k' :: 'i' :: 't' :: 't' :: 'e' :: 'n' :: [])
        ('s' :: 'i' :: 't' :: 't' :: 'i' :: 'n' :: 'g' :: []) = 3 := by
  refine ⟨?_, ?_, ?_, ?_⟩
  · intro a b
    constructor
    · show EditPath (levenshteinDistance a b) a b
      rw [levenshteinDistance_eq_levSpec]
      exact editPath_levSpec a b
    · intro n hn
      rw [levenshteinDistance_eq_levSpec]
      exact levSpec_le_editPath hn
  · intro b
    rfl
  · intro a
    by_cases h : a = []
    · subst h
      rfl
    · show levenshteinDistance a [] = a.length
      unfold levenshteinDistance
      rw [if_neg h, if_pos rfl]
  · rfl

/-- C8: normalizing a weight vector of positive total makes the values
sum to exactly 1, and an all-zero weight vector is left unchanged. -/
theorem C8_weight_normalization :
    (∀ w : Weights, 0 < weightsSum w → weightsSum (normalizeWeights w) = 1)
    ∧ (∀ w : Weights,
        (w.URL = 0 ∧ w.DOI = 0 ∧ w.title = 0 ∧ w.creators = 0 ∧ w.date = 0 ∧ w.publisher = 0
          ∧ w.journal = 0 ∧ w.shortTitle = 0 ∧ w.place = 0 ∧ w.ISBN = 0 ∧ w.itemType = 0) →
        normalizeWeights w = w) :=
  ⟨normalizeWeights_sum_one, normalizeWeights_all_zero⟩

theorem C8_weight_normalization_witness :
    weightsSum (normalizeWeights defaultWeights) = 1
    ∧ normalizeWeights zeroWeights = zeroWeights :=
  ⟨C8_weight_normalization.1 defaultWeights (by norm_num [weightsSum, defaultWeights]),
   C8_weight_normalization.2 zeroWeights ⟨rfl, rfl, rfl, rfl, rfl, rfl, rfl, rfl, rfl, rfl, rfl⟩⟩

/-- C9: the candidate list returned by detectDuplicates is sorted by
similarity in descending order, and for every similarity value the pairs
carrying it appear exactly as in the comparison loop's encounter order
(the pre-sort candidate list): the sort is stable. -/
theorem C9_sorted_descending_stable
    (items : List RawItem) (threshold : ℚ) (weights : Weights) (em f rst : Bool)
    (res : List DupPair) (norm : List NormalizedItem)
    (hnorm : items.mapM normalizeItemFields = Except.ok norm)
    (hres : detectDuplicates items threshold weights em f rst = Except.ok res) :
    List.Pairwise (fun a b => b.similarity ≤ a.similarity) res
    ∧ ∀ q : ℚ, res.filter (fun p => decide (p.similarity = q))
        = (collectCandidates norm threshold weights em f rst).filter
            (fun p => decide (p.similarity = q)) := by
  rw [detectDuplicates_ok items threshold weights em f rst norm hnorm] at hres
  injection hres with hres
  subst hres
  constructor
  · have hs := List.sorted_mergeSort pairLE_trans pairLE_total
      (collectCandidates norm threshold weights em f rst)
    exact hs.imp (fun h => of_decide_eq_true h)
  · intro q
    have hall : ∀ x ∈ (collectCandidates norm threshold weights em f rst).filter
        (fun p => decide (p.similarity = q)), x.similarity = q := by
      intro x hx
      exact of_decide_eq_true (List.mem_filter.mp hx).2
    have hpw : ((collectCandidates norm threshold weights em f rst).filter
        (fun p => decide (p.similarity = q))).Pairwise (fun a b => pairLE a b = true) := by
      apply List.pairwise_of_forall_mem_list
      intro a ha b hb
      have ha' := hall a ha
      have hb' := hall b hb
      simp [pairLE, ha', hb']
    have hsub := List.sublist_mergeSort pairLE_trans pairLE_total hpw (List.filter_sublist _)
    have hfe : ((collectCandidates norm threshold weights em f rst).filter
          (fun p => decide (p.similarity = q))).filter (fun p => decide (p.similarity = q))
        = (collectCandidates norm threshold weights em f rst).filter
          (fun p => decide (p.similarity = q)) :=
      List.filter_eq_self.mpr (fun a ha => decide_eq_true (hall a ha))
    have h3 := hsub.filter (fun p => decide (p.similarity = q))
    rw [hfe] at h3
    have hlen := ((List.mergeSort_perm
      (collectCandidates norm threshold weights em f rst) pairLE).filter
      (fun p => decide (p.similarity = q))).length_eq
    exact (h3.eq_of_length hlen.symm).symm

theorem C9_sorted_descending_stable_witness :
    List.Pairwise (fun a b => b.similarity ≤ a.similarity)
      ((collectCandidates [normA, normB] (6/10) defaultWeights true true false).mergeSort pairLE)
    ∧ ((collectCandidates [normA, normB] (6/10) defaultWeights true true false).mergeSort
        pairLE).filter (fun p => decide (p.similarity = 1))
      = (collectCandidates [normA, normB] (6/10) defaultWeights true true false).filter
          (fun p => decide (p.similarity = 1)) :=
  ⟨(C9_sorted_descending_stable [rawItemA, rawItemB] (6/10) defaultWeights true true false
      ((collectCandidates [normA, normB] (6/10) defaultWeights true true false).mergeSort pairLE)
      [normA, normB] (by rfl) (by rfl)).1,
   (C9_sorted_descending_stable [rawItemA, rawItemB] (6/10) defaultWeights true true false
      ((collectCandidates [normA, normB] (6/10) defaultWeights true true false).mergeSort pairLE)
      [normA, normB] (by rfl) (by rfl)).2 1⟩

/-- C10: the pairwise score is symmetric in its two record arguments,
because every per-field similarity the scorer uses is symmetric. -/
theorem C10_score_symmetric : ∀ (item1 item2 : NormalizedItem) (w : Weights) (f rst : Bool),
    calculateSimilarity item1 item2 w f rst = calculateSimilarity item2 item1 w f rst :=
  calculateSimilarity_comm

end ZDup
